import Mathlib

/-!
Shallow embedding of `internal/env/environment.go` from the `go-rriclient`
repository: a per-user store of named environment records persisted as
encrypted files in one directory, together with a separately persisted
most-recently-used ordering file (`env-order`).

Modelling conventions:
* The filesystem state visible to the store is a `Store V` value: the store
  directory path, whether the directory exists, its enumerated entries
  (for listing), the decoded record files keyed by full path, and the raw
  ordering file.  The external codec (`jcrypt`) is treated as a lossless
  round-trip, so record files hold the decoded value `V` directly.
* The ordering file is modelled post-parse: `none` means the file is
  missing, `some none` means its content does not parse as ordering
  metadata (this covers both an empty file and corrupt content, since Go's
  `json.Unmarshal` fails on both), and `some (some o)` means it parses
  as `o`.  A parsed `envOrder` keeps Go's distinction between a `nil`
  order slice (`none`) and a present slice (`some l`).
* Fallible external effects (`os.MkdirAll`, `jcrypt.MarshalToFile`,
  `jcrypt.UnmarshalFromFile`, `ioutil.WriteFile` of the ordering file) are
  modelled by a `Faults` record of injected failure flags.
* Console output is modelled only for the `WARNING:` prints of
  `createOrReadEnvironment` (returned as a list of warning strings); the
  purely informational prompt print is not modelled.
* Go errors are modelled as `Except String`; the `%q` formatting of
  identifiers inside error messages is modelled as plain double quotes.
-/

deriving instance DecidableEq for Except

namespace GoRRIClient

/-- Byte-level suffix test on strings, modelling Go `strings.HasSuffix`. -/
def hasSuffix (s sfx : String) : Bool :=
  sfx.data.isSuffixOf s.data

/-- Splits a character list at every `'/'`, keeping empty segments.
Helper for the lexical path cleaning performed by Go `path/filepath.Clean`. -/
def splitSlashAux : List Char → List Char → List (List Char)
  | [], cur => [cur.reverse]
  | c :: cs, cur =>
    if c = '/' then cur.reverse :: splitSlashAux cs []
    else splitSlashAux cs (c :: cur)

/-- Splits a string into its `'/'`-separated segments. -/
def splitSlash (s : String) : List (List Char) :=
  splitSlashAux s.data []

/-- One step of Go `filepath.Clean`'s segment processing (Unix rules):
drop empty and `.` segments, let `..` cancel a preceding normal segment,
keep leading `..` segments of relative paths, and drop `..` at the root.
The accumulator holds the processed segments in reverse order. -/
def cleanSegsStep (rooted : Bool) (acc : List (List Char)) (seg : List Char) :
    List (List Char) :=
  if seg = [] ∨ seg = ['.'] then acc
  else if seg = ['.', '.'] then
    match acc with
    | [] => if rooted then [] else [['.', '.']]
    | top :: rest => if top = ['.', '.'] then seg :: acc else rest
  else seg :: acc

/-- Processes all segments of a path for Go `filepath.Clean` (Unix rules). -/
def cleanSegs (rooted : Bool) (segs : List (List Char)) : List (List Char) :=
  (segs.foldl (cleanSegsStep rooted) []).reverse

/-- Lexical path cleaning, modelling Go `path/filepath.Clean` on Unix:
collapses repeated separators, eliminates `.` and `..` elements, returns
`.` for an empty result of a relative path and `/` for a rooted one. -/
def clean (path : String) : String :=
  if path = "" then "."
  else
    let rooted := path.data.head? = some '/'
    let out := List.intercalate ['/'] (cleanSegs rooted (splitSlash path))
    if rooted then String.mk ('/' :: out)
    else if out = [] then "." else String.mk out

/-- Models Go `filepath.Join` on two elements: non-empty elements are
joined with `/` and the result is cleaned; all-empty input yields `""`. -/
def filepathJoin (a b : String) : String :=
  if a = "" ∧ b = "" then ""
  else if a = "" then clean b
  else if b = "" then clean a
  else clean (a ++ "/" ++ b)

/-- Record file path resolution, modelling `Reader.getEnvFilePath`:
`filepath.Join(e.dir, envName+".json")`.  (The source carries a
`TODO conditional escaping` comment here.) -/
def getEnvFilePath (dir envName : String) : String :=
  filepathJoin dir (envName ++ ".json")

/-- Name of the ordering file, modelling the `envOrderFileName` constant. -/
def envOrderFileName : String := "env-order"

/-- Parsed ordering metadata, modelling the Go struct `envOrder`.
`order = none` models a `nil` slice (as Go's JSON decoding can produce),
`order = some l` a present slice. -/
structure envOrder where
  fixed : Bool
  order : Option (List String)
deriving DecidableEq, Repr

/-- One enumerated directory entry as seen by `ioutil.ReadDir`
(name and directory flag are all the listing logic inspects). -/
structure DirEntry where
  name : String
  isDir : Bool
deriving DecidableEq, Repr

/-- The filesystem state of one environment store directory. -/
structure Store (V : Type) where
  /-- The configuration directory of the `Reader` (`e.dir`). -/
  dir : String
  /-- Whether the store directory currently exists. -/
  dirExists : Bool
  /-- Directory entries in enumeration order, as `ioutil.ReadDir` yields them. -/
  entries : List DirEntry
  /-- Decoded record files, keyed by full file path. -/
  files : List (String × V)
  /-- The ordering file: missing, unparsable content, or parsed metadata. -/
  orderFile : Option (Option envOrder)
deriving DecidableEq

/-- Injected failure flags for the fallible external filesystem/codec calls. -/
structure Faults where
  /-- `os.MkdirAll` of the store directory fails. -/
  mkdirFails : Bool
  /-- `jcrypt.MarshalToFile` of a record fails. -/
  marshalFails : Bool
  /-- `jcrypt.UnmarshalFromFile` of an existing record fails. -/
  unmarshalFails : Bool
  /-- `ioutil.WriteFile` of the ordering file fails. -/
  orderWriteFails : Bool
deriving DecidableEq, Repr

variable {V : Type}

/-- Models `Reader.readEnvOrder`: a read error (missing file) or a JSON
parse error both yield `{Fixed: false, Order: []}` with a `nil` error;
only a successful parse returns the stored metadata. -/
def readEnvOrder (st : Store V) : envOrder × Option String :=
  match st.orderFile with
  | none => (⟨false, some []⟩, none)
  | some none => (⟨false, some []⟩, none)
  | some (some o) => (o, none)

/-- Models `Reader.writeEnvOrder`: serializes the metadata and writes the
ordering file (`json.Marshal` of this struct cannot fail, so only the
file write can). -/
def writeEnvOrder (fl : Faults) (st : Store V) (o : envOrder) :
    Store V × Except String Unit :=
  if fl.orderWriteFails then (st, Except.error "failed to write env order file")
  else ({ st with orderFile := some (some o) }, Except.ok ())

/-- Suffix normalization inside `envOrderBringToFront`: append `".json"`
unless the name already ends in it. -/
def normName (name : String) : String :=
  if hasSuffix name ".json" then name else name ++ ".json"

/-- The new order list computed by `envOrderBringToFront`: a `nil` previous
slice yields the singleton, otherwise the name followed by all previous
entries except itself, in their prior relative order. -/
def bringToFrontList (name : String) : Option (List String) → List String
  | none => [name]
  | some l => name :: l.filter (fun env => env != name)

/-- Models `Reader.envOrderBringToFront`: load the metadata (propagating
its — never occurring — error), no-op when `fixed`, otherwise persist the
move-to-front order with the `fixed` flag preserved. -/
def envOrderBringToFront (fl : Faults) (st : Store V) (name : String) :
    Store V × Except String Unit :=
  match readEnvOrder st with
  | (_, some e) => (st, Except.error e)
  | (order, none) =>
    if order.fixed then (st, Except.ok ())
    else
      writeEnvOrder fl st
        { fixed := order.fixed,
          order := some (bringToFrontList (normName name) order.order) }

/-- Warning printed by `createOrReadEnvironment` when persisting a freshly
captured record fails (directory creation or encrypted write). -/
def warnSaveMsg : String := "WARNING: failed to save environment"

/-- The `NotFound` error of a strict read, modelling
`fmt.Errorf("environment %q not found", envName)`. -/
def notFoundMsg (envName : String) : String :=
  "environment \"" ++ envName ++ "\" not found"

/-- Models `Reader.createOrReadEnvironment`.  Returns the final store, the
emitted warnings, and the operation result carrying the populated value.
When the record file is missing and a capture handler is present, a handler
failure aborts with no effects; on handler success the persistence step is
attempted (failures degrade to warnings), the ordering update runs with its
error discarded, and the call succeeds.  When the file exists, a decode
failure is fatal, otherwise the ordering update runs (error discarded) and
the decoded value is returned. -/
def createOrReadEnvironment (fl : Faults) (st : Store V) (envName : String)
    (enterEnvHandler : Option (String → Except String V)) :
    Store V × List String × Except String V :=
  let file := getEnvFilePath st.dir envName
  match st.files.lookup file with
  | none =>
    match enterEnvHandler with
    | some handler =>
      match handler envName with
      | Except.error e => (st, [], Except.error e)
      | Except.ok v =>
        let persisted : Store V × List String :=
          if fl.mkdirFails then (st, [warnSaveMsg])
          else
            let st1 := { st with dirExists := true }
            if fl.marshalFails then (st1, [warnSaveMsg])
            else ({ st1 with files := (file, v) :: st1.files }, [])
        ((envOrderBringToFront fl persisted.1 envName).1, persisted.2, Except.ok v)
    | none => (st, [], Except.error (notFoundMsg envName))
  | some v =>
    if fl.unmarshalFails then (st, [], Except.error "failed to decode environment file")
    else ((envOrderBringToFront fl st envName).1, [], Except.ok v)

/-- Models `Reader.ReadEnvironment`: a strict read, no capture handler. -/
def ReadEnvironment (fl : Faults) (st : Store V) (envName : String) :
    Store V × List String × Except String V :=
  createOrReadEnvironment fl st envName none

/-- Models `Reader.CreateOrReadEnvironment`: a read that falls back to the
reader's capture handler. -/
def CreateOrReadEnvironment (fl : Faults) (st : Store V) (envName : String)
    (enterEnvHandler : Option (String → Except String V)) :
    Store V × List String × Except String V :=
  createOrReadEnvironment fl st envName enterEnvHandler

/-- The `NotFound` error of a delete, modelling
`fmt.Errorf("environment %q does not exist", envName)`. -/
def notExistMsg (envName : String) : String :=
  "environment \"" ++ envName ++ "\" does not exist"

/-- Models `Reader.DeleteEnvironment`: fail when the record file is
missing, otherwise remove exactly that file (the ordering file is never
touched). -/
def DeleteEnvironment (st : Store V) (envName : String) :
    Store V × Except String Unit :=
  let file := getEnvFilePath st.dir envName
  match st.files.lookup file with
  | none => (st, Except.error (notExistMsg envName))
  | some _ => ({ st with files := st.files.filter (fun p => p.1 != file) }, Except.ok ())

/-- Index of the last occurrence of `n` in `l`, if any.  This is the value
the Go loop `for i, name := range order.Order { orderMap[name] = i }`
leaves in the map: later duplicates overwrite earlier ones. -/
def lastIdx : List String → String → Option Nat
  | [], _ => none
  | x :: xs, n =>
    match lastIdx xs n with
    | some j => some (j + 1)
    | none => if x = n then some 0 else none

/-- Go's `math.MaxInt32`, the sort key used for entries absent from the
order list. -/
def maxInt32 : Nat := 2147483647

/-- The sort key of a file name under an order list: its `orderMap` index,
or `math.MaxInt32` when absent. -/
def orderKey (l : List String) (name : String) : Nat :=
  (lastIdx l name).getD maxInt32

/-- Inserts `x` into `s` behind every element strictly less than it, in
front of the first element not less than it.  Building block of the stable
sort modelling `sort.SliceStable`. -/
def insertStable (less : α → α → Bool) (x : α) : List α → List α
  | [] => [x]
  | y :: ys => if less y x then y :: insertStable less x ys else x :: y :: ys

/-- Stable sort with respect to a strict comparator, modelling Go's
`sort.SliceStable`.  For a strict weak order (here: comparison of `Nat`
sort keys) the stable sort is extensionally unique, so this structurally
recursive insertion sort computes exactly the slice `sort.SliceStable`
produces; the theorems below establish the defining properties
(permutation, sortedness, stability). -/
def sortSliceStable (less : α → α → Bool) : List α → List α
  | [] => []
  | x :: xs => insertStable less x (sortSliceStable less xs)

/-- Models `Reader.GetEnvironmentFiles`: a missing directory yields the
empty listing; entries are filtered to non-directory `.json` files other
than the ordering file; when the parsed order list is a non-empty slice,
the filtered entries are stable-sorted by their `orderMap` index (absent
entries keyed `math.MaxInt32`). -/
def GetEnvironmentFiles (st : Store V) : List DirEntry :=
  if !st.dirExists then []
  else
    let envFiles := st.entries.filter
      (fun fi => !fi.isDir && hasSuffix fi.name ".json" && fi.name != envOrderFileName)
    let order := (readEnvOrder st).1
    match order.order with
    | some l =>
      if l.length > 0 then
        sortSliceStable
          (fun a b => decide (orderKey l a.name < orderKey l b.name)) envFiles
      else envFiles
    | none => envFiles

/-! Helper lemmas about the embedded operations. -/

theorem readEnvOrder_snd (st : Store V) : (readEnvOrder st).2 = none := by
  rcases st with ⟨_, _, _, _, _ | _ | o⟩ <;> rfl

theorem readEnvOrder_ext {st st' : Store V} (h : st.orderFile = st'.orderFile) :
    readEnvOrder st = readEnvOrder st' := by
  unfold readEnvOrder
  rw [h]

theorem envOrderBringToFront_eq (fl : Faults) (st : Store V) (n : String) :
    envOrderBringToFront fl st n =
      if (readEnvOrder st).1.fixed then (st, Except.ok ())
      else if fl.orderWriteFails then
        (st, Except.error "failed to write env order file")
      else
        ({ st with orderFile := some (some
            { fixed := (readEnvOrder st).1.fixed,
              order := some (bringToFrontList (normName n) (readEnvOrder st).1.order) }) },
          Except.ok ()) := by
  rcases hof : st.orderFile with _ | (_ | o) <;>
    simp [envOrderBringToFront, readEnvOrder, writeEnvOrder, hof]

theorem envOrderBringToFront_fixed (fl : Faults) (st : Store V) (n : String)
    (hfx : (readEnvOrder st).1.fixed = true) :
    envOrderBringToFront fl st n = (st, Except.ok ()) := by
  rw [envOrderBringToFront_eq, hfx]
  rfl

theorem lookup_filter_ne_self (l : List (String × V)) (f : String) :
    (l.filter (fun p => p.1 != f)).lookup f = none := by
  induction l with
  | nil => rfl
  | cons hd tl ih =>
    by_cases h : hd.1 = f
    · simp [List.filter_cons, h, ih]
    · have hkeep : (hd.1 != f) = true := bne_iff_ne.mpr h
      have hbe : (f == hd.1) = false := beq_eq_false_iff_ne.mpr fun hc => h hc.symm
      simp [List.filter_cons, hkeep, List.lookup, hbe, ih]

theorem lookup_filter_ne_other (l : List (String × V)) (f q : String) (hq : q ≠ f) :
    (l.filter (fun p => p.1 != f)).lookup q = l.lookup q := by
  induction l with
  | nil => rfl
  | cons hd tl ih =>
    by_cases h : hd.1 = f
    · have hbe : (q == hd.1) = false := beq_eq_false_iff_ne.mpr (h ▸ hq)
      have hqf : (q == f) = false := beq_eq_false_iff_ne.mpr hq
      simp [List.filter_cons, h, List.lookup, hbe, hqf, ih]
    · have hkeep : (hd.1 != f) = true := bne_iff_ne.mpr h
      cases hqh : q == hd.1 with
      | true => simp [List.filter_cons, hkeep, List.lookup, hqh]
      | false => simp [List.filter_cons, hkeep, List.lookup, hqh, ih]

theorem bringToFrontList_eq (m : String) (oo : Option (List String)) :
    bringToFrontList m oo = m :: (oo.getD []).filter (fun env => env != m) := by
  cases oo <;> rfl

/-- C5: whenever the ordering file is missing or its content fails to parse,
`readEnvOrder` yields `{fixed: false, order: []}`; `readEnvOrder` never
returns an error for any store state; and listing behaves identically on a
corrupt ordering file and on an absent one. -/
theorem c5_order_read_tolerant (st : Store V) :
    (st.orderFile = none ∨ st.orderFile = some none →
      readEnvOrder st = (⟨false, some []⟩, none)) ∧
    (readEnvOrder st).2 = none ∧
    GetEnvironmentFiles { st with orderFile := some none } =
      GetEnvironmentFiles { st with orderFile := none } := by
  refine ⟨fun h => ?_, readEnvOrder_snd st, ?_⟩
  · rcases h with h | h <;> simp [readEnvOrder, h]
  · simp [GetEnvironmentFiles, readEnvOrder]

/-- Witness for C5 at a concrete store with a corrupt ordering file. -/
theorem c5_witness :
    readEnvOrder (V := Nat)
        { dir := "/h/u", dirExists := true, entries := [], files := [],
          orderFile := some none } =
      (⟨false, some []⟩, none) :=
  (c5_order_read_tolerant _).1 (Or.inr rfl)

/-- C8: a strict read (`ReadEnvironment`, no capture handler) of an
identifier whose record file does not exist fails with the not-found error
and leaves the store — directory, record files and ordering file — exactly
as it was. -/
theorem c8_strict_read_not_found (fl : Faults) (st : Store V) (envName : String)
    (hmiss : st.files.lookup (getEnvFilePath st.dir envName) = none) :
    ReadEnvironment fl st envName = (st, [], Except.error (notFoundMsg envName)) := by
  simp [ReadEnvironment, createOrReadEnvironment, hmiss]

/-- Witness for C8 at a concrete empty store. -/
theorem c8_witness :
    ReadEnvironment (V := Nat) ⟨false, false, false, false⟩
        { dir := "/h/u", dirExists := true, entries := [], files := [], orderFile := none }
        "a" =
      ({ dir := "/h/u", dirExists := true, entries := [], files := [], orderFile := none },
        [], Except.error (notFoundMsg "a")) :=
  c8_strict_read_not_found _ _ _ rfl

/-- C9: `DeleteEnvironment` fails with the not-found error when the record
file does not exist; on success it removes the record's file, leaves every
other file untouched, and leaves the ordering file (and hence any
subsequently loaded order list) unchanged. -/
theorem c9_delete_environment (st : Store V) (envName : String) :
    (st.files.lookup (getEnvFilePath st.dir envName) = none →
      DeleteEnvironment st envName = (st, Except.error (notExistMsg envName))) ∧
    (∀ v, st.files.lookup (getEnvFilePath st.dir envName) = some v →
      (DeleteEnvironment st envName).2 = Except.ok () ∧
      (DeleteEnvironment st envName).1.files.lookup (getEnvFilePath st.dir envName)
        = none ∧
      (∀ q, q ≠ getEnvFilePath st.dir envName →
        (DeleteEnvironment st envName).1.files.lookup q = st.files.lookup q) ∧
      (DeleteEnvironment st envName).1.orderFile = st.orderFile ∧
      readEnvOrder (DeleteEnvironment st envName).1 = readEnvOrder st) := by
  constructor
  · intro h
    simp [DeleteEnvironment, h]
  · intro v h
    have hfiles : (DeleteEnvironment st envName).1.files =
        st.files.filter (fun p => p.1 != getEnvFilePath st.dir envName) := by
      simp [DeleteEnvironment, h]
    have hord : (DeleteEnvironment st envName).1.orderFile = st.orderFile := by
      simp [DeleteEnvironment, h]
    refine ⟨by simp [DeleteEnvironment, h], ?_, ?_, hord, readEnvOrder_ext hord⟩
    · rw [hfiles]
      exact lookup_filter_ne_self _ _
    · intro q hq
      rw [hfiles]
      exact lookup_filter_ne_other _ _ _ hq

/-- Witness for C9 at a concrete store holding one record. -/
theorem c9_witness :
    (DeleteEnvironment (V := Nat)
        { dir := "/h/u", dirExists := true, entries := [],
          files := [("/h/u/a.json", 5)],
          orderFile := some (some ⟨false, some ["a.json"]⟩) } "a").2 = Except.ok () ∧
    (DeleteEnvironment (V := Nat)
        { dir := "/h/u", dirExists := true, entries := [],
          files := [("/h/u/a.json", 5)],
          orderFile := some (some ⟨false, some ["a.json"]⟩) } "a").1.orderFile =
      some (some ⟨false, some ["a.json"]⟩) := by
  have h := (c9_delete_environment (V := Nat)
      { dir := "/h/u", dirExists := true, entries := [],
        files := [("/h/u/a.json", 5)],
        orderFile := some (some ⟨false, some ["a.json"]⟩) } "a").2 5 (by decide)
  exact ⟨h.1, by rw [h.2.2.2.1]⟩

theorem count_bringToFrontList (m : String) (oo : Option (List String)) :
    (bringToFrontList m oo).count m = 1 := by
  rw [bringToFrontList_eq, List.count_cons_self]
  have h0 : ((oo.getD []).filter (fun env => env != m)).count m = 0 :=
    List.count_eq_zero.mpr (fun hmem => by
      have hp := List.of_mem_filter hmem
      simp at hp)
  rw [h0]

theorem nodup_bringToFrontList (m : String) (oo : Option (List String))
    (h : (oo.getD []).Nodup) : (bringToFrontList m oo).Nodup := by
  rw [bringToFrontList_eq]
  refine List.Nodup.cons (fun hmem => ?_) (h.filter _)
  have hp := List.of_mem_filter hmem
  simp at hp

theorem bringToFrontList_not_mem (m : String) (oo : Option (List String))
    (h : m ∉ oo.getD []) : bringToFrontList m oo = m :: oo.getD [] := by
  rw [bringToFrontList_eq]
  congr 1
  exact List.filter_eq_self.mpr fun a ha => bne_iff_ne.mpr fun hc => h (hc ▸ ha)

theorem bringToFrontList_idem (m : String) (oo : Option (List String)) :
    bringToFrontList m (some (bringToFrontList m oo)) = bringToFrontList m oo := by
  rw [bringToFrontList_eq m oo, bringToFrontList_eq]
  simp only [Option.getD_some, List.filter_cons, bne_self_eq_false, Bool.false_eq_true,
    if_false]
  congr 1
  exact List.filter_eq_self.mpr fun a ha => (List.mem_filter.mp ha).2

/-- C4: when the persisted ordering metadata has `fixed = true`, the
bring-to-front update is a no-op that returns success without writing, and
every read or create-or-read (any capture handler, any injected faults)
leaves the persisted ordering file byte-for-byte unchanged. -/
theorem c4_fixed_order_frozen (fl : Faults) (st : Store V) (o : envOrder) (n : String)
    (hof : st.orderFile = some (some o)) (hfx : o.fixed = true) :
    envOrderBringToFront fl st n = (st, Except.ok ()) ∧
    ∀ h, (createOrReadEnvironment fl st n h).1.orderFile = st.orderFile := by
  have hrd : (readEnvOrder st).1.fixed = true := by
    simp [readEnvOrder, hof, hfx]
  have key : ∀ st' : Store V, st'.orderFile = st.orderFile →
      (envOrderBringToFront fl st' n).1.orderFile = st.orderFile := by
    intro st' he
    have hrd' : (readEnvOrder st').1.fixed = true := by
      rw [readEnvOrder_ext he]
      exact hrd
    rw [envOrderBringToFront_fixed fl st' n hrd']
    exact he
  refine ⟨envOrderBringToFront_fixed fl st n hrd, fun h => ?_⟩
  cases hl : st.files.lookup (getEnvFilePath st.dir n) with
  | none =>
    cases h with
    | none => simp [createOrReadEnvironment, hl]
    | some handler =>
      cases hh : handler n with
      | error e => simp [createOrReadEnvironment, hl, hh]
      | ok v =>
        simp only [createOrReadEnvironment, hl, hh]
        refine key _ ?_
        split
        · rfl
        · split <;> rfl
  | some v =>
    cases hum : fl.unmarshalFails with
    | true => simp [createOrReadEnvironment, hl, hum]
    | false =>
      simp only [createOrReadEnvironment, hl, hum, Bool.false_eq_true, if_false]
      exact key st rfl

/-- Witness for C4 at a concrete store with a pinned ordering file. -/
theorem c4_witness :
    envOrderBringToFront (V := Nat) ⟨false, false, false, false⟩
        { dir := "/h/u", dirExists := true, entries := [], files := [],
          orderFile := some (some ⟨true, some ["b.json"]⟩) } "a" =
      ({ dir := "/h/u", dirExists := true, entries := [], files := [],
          orderFile := some (some ⟨true, some ["b.json"]⟩) }, Except.ok ()) ∧
    (createOrReadEnvironment (V := Nat) ⟨false, false, false, false⟩
        { dir := "/h/u", dirExists := true, entries := [], files := [],
          orderFile := some (some ⟨true, some ["b.json"]⟩) } "a"
        (some fun _ => Except.ok 1)).1.orderFile =
      some (some ⟨true, some ["b.json"]⟩) := by
  have h := c4_fixed_order_frozen (V := Nat) ⟨false, false, false, false⟩
    { dir := "/h/u", dirExists := true, entries := [], files := [],
      orderFile := some (some ⟨true, some ["b.json"]⟩) } ⟨true, some ["b.json"]⟩ "a"
    rfl rfl
  exact ⟨h.1, h.2 (some fun _ => Except.ok 1)⟩

/-- C10: when writing the ordering file fails, the bring-to-front update
does report an error, but both call sites in `createOrReadEnvironment`
discard it: a successful decode of an existing record and a successful
capture of a missing record both still return success. -/
theorem c10_order_write_failure_discarded (fl : Faults) (st : Store V) (n : String)
    (hw : fl.orderWriteFails = true) :
    ((readEnvOrder st).1.fixed = false →
      (envOrderBringToFront fl st n).2 =
        Except.error "failed to write env order file") ∧
    (∀ v, st.files.lookup (getEnvFilePath st.dir n) = some v →
      fl.unmarshalFails = false →
      ∀ h, (createOrReadEnvironment fl st n h).2.2 = Except.ok v) ∧
    (∀ h v, st.files.lookup (getEnvFilePath st.dir n) = none →
      h n = Except.ok v →
      (createOrReadEnvironment fl st n (some h)).2.2 = Except.ok v) := by
  refine ⟨fun hfx => ?_, fun v hl hum h => ?_, fun h v hl hh => ?_⟩
  · rw [envOrderBringToFront_eq, hfx, hw]
    simp
  · simp [createOrReadEnvironment, hl, hum]
  · simp [createOrReadEnvironment, hl, hh]

/-- Witness for C10: a store with one record and an unpinned order, with
the ordering-file write failing. -/
theorem c10_witness :
    (envOrderBringToFront (V := Nat) ⟨false, false, false, true⟩
        { dir := "/h/u", dirExists := true, entries := [],
          files := [("/h/u/a.json", 5)], orderFile := none } "a").2 =
      Except.error "failed to write env order file" ∧
    (createOrReadEnvironment (V := Nat) ⟨false, false, false, true⟩
        { dir := "/h/u", dirExists := true, entries := [],
          files := [("/h/u/a.json", 5)], orderFile := none } "a" none).2.2 =
      Except.ok 5 ∧
    (createOrReadEnvironment (V := Nat) ⟨false, false, false, true⟩
        { dir := "/h/u", dirExists := true, entries := [],
          files := [("/h/u/a.json", 5)], orderFile := none } "b"
        (some fun _ => Except.ok 7)).2.2 = Except.ok 7 := by
  have ha := c10_order_write_failure_discarded (V := Nat) ⟨false, false, false, true⟩
    { dir := "/h/u", dirExists := true, entries := [],
      files := [("/h/u/a.json", 5)], orderFile := none } "a" rfl
  have hb := c10_order_write_failure_discarded (V := Nat) ⟨false, false, false, true⟩
    { dir := "/h/u", dirExists := true, entries := [],
      files := [("/h/u/a.json", 5)], orderFile := none } "b" rfl
  exact ⟨ha.1 rfl, ha.2.1 5 (by decide) rfl none,
    hb.2.2 (fun _ => Except.ok 7) 7 (by decide) rfl⟩

/-- C3 counterexample: the update only de-duplicates the moved identifier,
so a prior order list that already contains duplicates of another name
(`[x.json, x.json]`, reachable since the ordering file is operator-edited)
yields a result list that still contains duplicates, refuting the claim's
unconditional "the resulting list contains no duplicates". -/
theorem c3_counterexample :
    (envOrderBringToFront (V := Nat) ⟨false, false, false, false⟩
        { dir := "/h/u", dirExists := true, entries := [], files := [],
          orderFile := some (some ⟨false, some ["x.json", "x.json"]⟩) } "a").1.orderFile =
      some (some ⟨false, some ["a.json", "x.json", "x.json"]⟩) ∧
    ¬ (["a.json", "x.json", "x.json"] : List String).Nodup := by
  exact ⟨by decide, by decide⟩

/-- C3 (amended): with an unpinned prior ordering and a successful
ordering-file write, the bring-to-front update persists exactly the
suffixed identifier followed by all previous entries except itself in
their prior relative order, preserving the `fixed` flag; the moved entry
occurs exactly once, a duplicate-free prior list stays duplicate-free
(unconditional duplicate-freedom fails, see the counterexample), an
identifier never seen before is simply prepended, and applying the update
twice persists the same order list as applying it once. -/
theorem c3_bring_to_front_move_to_front (fl : Faults) (st : Store V) (n : String)
    (hfx : (readEnvOrder st).1.fixed = false) (hw : fl.orderWriteFails = false) :
    (envOrderBringToFront fl st n).1.orderFile =
      some (some ⟨false, some (bringToFrontList (normName n) (readEnvOrder st).1.order)⟩) ∧
    bringToFrontList (normName n) (readEnvOrder st).1.order =
      normName n ::
        ((readEnvOrder st).1.order.getD []).filter (fun env => env != normName n) ∧
    (bringToFrontList (normName n) (readEnvOrder st).1.order).count (normName n)
      = 1 ∧
    (((readEnvOrder st).1.order.getD []).Nodup →
      (bringToFrontList (normName n) (readEnvOrder st).1.order).Nodup) ∧
    (normName n ∉ (readEnvOrder st).1.order.getD [] →
      bringToFrontList (normName n) (readEnvOrder st).1.order =
        normName n :: (readEnvOrder st).1.order.getD []) ∧
    (envOrderBringToFront fl (envOrderBringToFront fl st n).1 n).1.orderFile =
      (envOrderBringToFront fl st n).1.orderFile := by
  have hres : envOrderBringToFront fl st n =
      ({ st with orderFile := some (some ⟨false, some (bringToFrontList (normName n) (readEnvOrder st).1.order)⟩) }, Except.ok ()) := by
    rw [envOrderBringToFront_eq, hfx, hw]
    simp
  refine ⟨by rw [hres], bringToFrontList_eq _ _, count_bringToFrontList _ _,
    nodup_bringToFrontList _ _, bringToFrontList_not_mem _ _, ?_⟩
  rw [hres]
  simp [envOrderBringToFront_eq, readEnvOrder, hw, bringToFrontList_idem]

/-- Witness for C3: moving `a` to the front of the order `[x.json, a.json]`
yields `[a.json, x.json]`. -/
theorem c3_witness :
    (envOrderBringToFront (V := Nat) ⟨false, false, false, false⟩
        { dir := "/h/u", dirExists := true, entries := [], files := [],
          orderFile := some (some ⟨false, some ["x.json", "a.json"]⟩) } "a").1.orderFile =
      some (some ⟨false, some (bringToFrontList (normName "a")
        (readEnvOrder (V := Nat)
          { dir := "/h/u", dirExists := true, entries := [], files := [],
            orderFile := some (some ⟨false, some ["x.json", "a.json"]⟩) }).1.order)⟩) ∧
    bringToFrontList (normName "a") (some ["x.json", "a.json"]) =
      ["a.json", "x.json"] := by
  have h := c3_bring_to_front_move_to_front (V := Nat) ⟨false, false, false, false⟩
    { dir := "/h/u", dirExists := true, entries := [], files := [],
      orderFile := some (some ⟨false, some ["x.json", "a.json"]⟩) } "a" rfl rfl
  exact ⟨h.1, by decide⟩

/-- C1: create-or-read of a missing record with a capture handler.  A
handler failure is returned as-is and the whole store state — directory,
record files and ordering file — is left untouched.  On handler success
the operation returns the captured value even when directory creation or
the encrypted record write fails (those failures only produce the save
warning), and the ordering bring-to-front update still takes place, here
shown by the ordering file ending up updated whenever the ordering itself
is unpinned and its write succeeds, independently of the persistence
faults. -/
theorem c1_create_or_read_capture_flow (fl : Faults) (st : Store V) (envName : String)
    (h : String → Except String V)
    (hmiss : st.files.lookup (getEnvFilePath st.dir envName) = none) :
    (∀ e, h envName = Except.error e →
      createOrReadEnvironment fl st envName (some h) = (st, [], Except.error e)) ∧
    (∀ v, h envName = Except.ok v →
      (createOrReadEnvironment fl st envName (some h)).2.2 = Except.ok v ∧
      (fl.mkdirFails = true ∨ fl.marshalFails = true →
        (createOrReadEnvironment fl st envName (some h)).2.1 = [warnSaveMsg]) ∧
      ((readEnvOrder st).1.fixed = false → fl.orderWriteFails = false →
        (createOrReadEnvironment fl st envName (some h)).1.orderFile =
          some (some ⟨false, some (bringToFrontList (normName envName) (readEnvOrder st).1.order)⟩))) := by
  refine ⟨fun e he => ?_, fun v hv => ⟨?_, ?_, ?_⟩⟩
  · simp [createOrReadEnvironment, hmiss, he]
  · simp [createOrReadEnvironment, hmiss, hv]
  · intro hflag
    simp only [createOrReadEnvironment, hmiss, hv]
    rcases hflag with hmk | hma
    · simp [hmk]
    · cases hmk : fl.mkdirFails with
      | true => simp [hmk]
      | false => simp [hmk, hma]
  · intro hfx hw
    simp only [createOrReadEnvironment, hmiss, hv]
    have horder : ∀ st' : Store V, st'.orderFile = st.orderFile →
        (envOrderBringToFront fl st' envName).1.orderFile =
          some (some ⟨false, some (bringToFrontList (normName envName) (readEnvOrder st).1.order)⟩) := by
      intro st' he
      rw [envOrderBringToFront_eq, readEnvOrder_ext he, hfx, hw]
      simp
    refine horder _ ?_
    split
    · rfl
    · split <;> rfl

/-- Witness for C1 at a concrete empty store whose directory creation
fails: a failing handler aborts cleanly, a successful one yields success
with a warning and an updated ordering file. -/
theorem c1_witness :
    createOrReadEnvironment (V := Nat) ⟨true, false, false, false⟩
        { dir := "/h/u", dirExists := false, entries := [], files := [], orderFile := none }
        "a" (some fun _ => Except.error "boom") =
      ({ dir := "/h/u", dirExists := false, entries := [], files := [], orderFile := none },
        [], Except.error "boom") ∧
    (createOrReadEnvironment (V := Nat) ⟨true, false, false, false⟩
        { dir := "/h/u", dirExists := false, entries := [], files := [], orderFile := none }
        "a" (some fun _ => Except.ok 7)).2.2 = Except.ok 7 ∧
    (createOrReadEnvironment (V := Nat) ⟨true, false, false, false⟩
        { dir := "/h/u", dirExists := false, entries := [], files := [], orderFile := none }
        "a" (some fun _ => Except.ok 7)).2.1 = [warnSaveMsg] ∧
    (createOrReadEnvironment (V := Nat) ⟨true, false, false, false⟩
        { dir := "/h/u", dirExists := false, entries := [], files := [], orderFile := none }
        "a" (some fun _ => Except.ok 7)).1.orderFile =
      some (some ⟨false, some ["a.json"]⟩) := by
  have he := (c1_create_or_read_capture_flow (V := Nat) ⟨true, false, false, false⟩
    { dir := "/h/u", dirExists := false, entries := [], files := [], orderFile := none }
    "a" (fun _ => Except.error "boom") rfl).1 "boom" rfl
  have ho := (c1_create_or_read_capture_flow (V := Nat) ⟨true, false, false, false⟩
    { dir := "/h/u", dirExists := false, entries := [], files := [], orderFile := none }
    "a" (fun _ => Except.ok 7) rfl).2 7 rfl
  exact ⟨he, ho.1, ho.2.1 (Or.inl rfl), (ho.2.2 rfl rfl).trans (by decide)⟩

/-- C6 (code bug): `getEnvFilePath` is deterministic, but it is not
injective on identifiers: `filepath.Join` cleans the joined path, so the
distinct identifiers `a` and `./a` resolve to the same record file path.
The source marks the missing escaping with a `TODO conditional escaping`
comment, while the spec demands that no two distinct identifiers map to
the same path. -/
theorem c6_env_file_path_collision :
    getEnvFilePath "/home/user/.rri" "a" = "/home/user/.rri/a.json" ∧
    getEnvFilePath "/home/user/.rri" "./a" = "/home/user/.rri/a.json" ∧
    ("a" : String) ≠ "./a" := by
  exact ⟨by decide, by decide, by decide⟩

theorem hasSuffix_append_self (s : String) (sfx : String) :
    hasSuffix (s ++ sfx) sfx = true := by
  unfold hasSuffix
  rw [List.isSuffixOf_iff_suffix, String.data_append]
  exact List.suffix_append _ _

theorem hasSuffix_normName (n : String) : hasSuffix (normName n) ".json" = true := by
  unfold normName
  cases h : hasSuffix n ".json" with
  | true => simp [h]
  | false => simp [h, hasSuffix_append_self]

theorem mem_bringToFrontList (m : String) (oo : Option (List String)) (x : String)
    (hx : x ∈ bringToFrontList m oo) : x = m ∨ x ∈ oo.getD [] := by
  rw [bringToFrontList_eq] at hx
  rcases List.mem_cons.mp hx with hx | hx
  · exact Or.inl hx
  · exact Or.inr (List.mem_of_mem_filter hx)

/-- C7 counterexample: for the identifier `a.json` — which already ends in
the record-file suffix — the bring-to-front update writes the entry
`a.json`, while the accessed record's file path appends the suffix again:
the actual on-disk file name `a.json.json` differs from the written
entry. -/
theorem c7_counterexample :
    (envOrderBringToFront (V := Nat) ⟨false, false, false, false⟩
        { dir := "/h/u", dirExists := true, entries := [], files := [],
          orderFile := some (some ⟨false, some []⟩) } "a.json").1.orderFile =
      some (some ⟨false, some ["a.json"]⟩) ∧
    getEnvFilePath "/h/u" "a.json" = "/h/u/a.json.json" ∧
    ("a.json" : String) ≠ "a.json.json" := by
  exact ⟨by decide, by decide, by decide⟩

/-- C7 (amended): with an unpinned ordering and a successful write, the
bring-to-front update persists exactly the suffix-normalized identifier in
front of the prior entries; every written entry is either carried over
from the prior list or is that normalized identifier, which always ends in
the record-file suffix (appended exactly when the identifier does not
already end in it) and occurs exactly once.  For an identifier that
already ends in `.json` the written entry is the identifier itself, which
differs from the record's actual on-disk file name, since `getEnvFilePath`
appends the suffix unconditionally (see the counterexample). -/
theorem c7_order_entries_suffixed (fl : Faults) (st : Store V) (n : String)
    (hfx : (readEnvOrder st).1.fixed = false) (hw : fl.orderWriteFails = false) :
    (envOrderBringToFront fl st n).1.orderFile =
      some (some ⟨false, some (bringToFrontList (normName n) (readEnvOrder st).1.order)⟩) ∧
    hasSuffix (normName n) ".json" = true ∧
    (hasSuffix n ".json" = false → normName n = n ++ ".json") ∧
    (hasSuffix n ".json" = true → normName n = n) ∧
    (∀ x ∈ bringToFrontList (normName n) (readEnvOrder st).1.order,
      x = normName n ∨ x ∈ (readEnvOrder st).1.order.getD []) ∧
    (bringToFrontList (normName n) (readEnvOrder st).1.order).count (normName n) = 1 := by
  refine ⟨?_, hasSuffix_normName n, fun hn => by simp [normName, hn],
    fun hn => by simp [normName, hn], mem_bringToFrontList _ _,
    count_bringToFrontList _ _⟩
  rw [envOrderBringToFront_eq, hfx, hw]
  simp

/-- Witness for C7: bringing the unsuffixed identifier `b` to the front of
the order `[a.json]` writes the suffixed entry `b.json`. -/
theorem c7_witness :
    (envOrderBringToFront (V := Nat) ⟨false, false, false, false⟩
        { dir := "/h/u", dirExists := true, entries := [], files := [],
          orderFile := some (some ⟨false, some ["a.json"]⟩) } "b").1.orderFile =
      some (some ⟨false, some (bringToFrontList (normName "b") (some ["a.json"]))⟩) ∧
    normName "b" = "b.json" ∧
    bringToFrontList (normName "b") (some ["a.json"]) = ["b.json", "a.json"] := by
  have h := c7_order_entries_suffixed (V := Nat) ⟨false, false, false, false⟩
    { dir := "/h/u", dirExists := true, entries := [], files := [],
      orderFile := some (some ⟨false, some ["a.json"]⟩) } "b" rfl rfl
  exact ⟨h.1, h.2.2.1 (by decide), by decide⟩

/-! Properties of the stable sort and of the order-map key. -/

theorem insertStable_perm (less : α → α → Bool) (x : α) (s : List α) :
    (insertStable less x s).Perm (x :: s) := by
  induction s with
  | nil => exact List.Perm.refl _
  | cons y ys ih =>
    cases hl : less y x with
    | true =>
      have hred : insertStable less x (y :: ys) = y :: insertStable less x ys := by
        simp [insertStable, hl]
      rw [hred]
      exact (ih.cons y).trans (List.Perm.swap x y ys)
    | false =>
      have hred : insertStable less x (y :: ys) = x :: y :: ys := by
        simp [insertStable, hl]
      rw [hred]

theorem sortSliceStable_perm (less : α → α → Bool) (l : List α) :
    (sortSliceStable less l).Perm l := by
  induction l with
  | nil => exact List.Perm.refl _
  | cons x xs ih => exact (insertStable_perm less x _).trans (ih.cons x)

theorem insertStable_pairwise (key : α → Nat) (x : α) (s : List α)
    (hs : s.Pairwise (fun a b => key a ≤ key b)) :
    (insertStable (fun a b => decide (key a < key b)) x s).Pairwise
      (fun a b => key a ≤ key b) := by
  induction s with
  | nil => simp [insertStable]
  | cons y ys ih =>
    rcases List.pairwise_cons.mp hs with ⟨hy, hys⟩
    cases hl : decide (key y < key x) with
    | true =>
      have hred : insertStable (fun a b => decide (key a < key b)) x (y :: ys) =
          y :: insertStable (fun a b => decide (key a < key b)) x ys := by
        simp [insertStable, hl]
      rw [hred]
      refine List.pairwise_cons.mpr ⟨fun z hz => ?_, ih hys⟩
      rcases List.mem_cons.mp ((insertStable_perm _ x ys).mem_iff.mp hz) with hz | hz
      · exact hz ▸ Nat.le_of_lt (of_decide_eq_true hl)
      · exact hy z hz
    | false =>
      have hred : insertStable (fun a b => decide (key a < key b)) x (y :: ys) =
          x :: y :: ys := by
        simp [insertStable, hl]
      rw [hred]
      have hxy : key x ≤ key y := Nat.le_of_not_lt (of_decide_eq_false hl)
      refine List.pairwise_cons.mpr ⟨fun z hz => ?_, hs⟩
      rcases List.mem_cons.mp hz with hz | hz
      · exact hz ▸ hxy
      · exact hxy.trans (hy z hz)

theorem sortSliceStable_pairwise (key : α → Nat) (l : List α) :
    (sortSliceStable (fun a b => decide (key a < key b)) l).Pairwise
      (fun a b => key a ≤ key b) := by
  induction l with
  | nil => simp [sortSliceStable]
  | cons x xs ih => exact insertStable_pairwise key x _ ih

theorem insertStable_filter_key (key : α → Nat) (x : α) (k : Nat) (s : List α) :
    (insertStable (fun a b => decide (key a < key b)) x s).filter
        (fun e => key e == k) =
      if key x == k then x :: s.filter (fun e => key e == k)
      else s.filter (fun e => key e == k) := by
  induction s with
  | nil =>
    by_cases hx : key x = k
    · subst hx
      simp [insertStable, List.filter]
    · have hxk : (key x == k) = false := beq_eq_false_iff_ne.mpr hx
      simp [insertStable, List.filter, hxk]
  | cons y ys ih =>
    cases hl : decide (key y < key x) with
    | true =>
      have hred : insertStable (fun a b => decide (key a < key b)) x (y :: ys) =
          y :: insertStable (fun a b => decide (key a < key b)) x ys := by
        simp [insertStable, hl]
      rw [hred]
      by_cases hx : key x = k
      · subst hx
        have hyk : (key y == key x) = false :=
          beq_eq_false_iff_ne.mpr (Nat.ne_of_lt (of_decide_eq_true hl))
        simp [List.filter_cons, hyk, ih]
      · have hxk : (key x == k) = false := beq_eq_false_iff_ne.mpr hx
        simp [List.filter_cons, hxk, ih]
    | false =>
      have hred : insertStable (fun a b => decide (key a < key b)) x (y :: ys) =
          x :: y :: ys := by
        simp [insertStable, hl]
      rw [hred]
      by_cases hx : key x = k
      · subst hx
        simp [List.filter_cons]
      · have hxk : (key x == k) = false := beq_eq_false_iff_ne.mpr hx
        simp [List.filter_cons, hxk]

theorem sortSliceStable_filter_key (key : α → Nat) (k : Nat) (l : List α) :
    (sortSliceStable (fun a b => decide (key a < key b)) l).filter
        (fun e => key e == k) = l.filter (fun e => key e == k) := by
  induction l with
  | nil => rfl
  | cons x xs ih =>
    have hred : sortSliceStable (fun a b => decide (key a < key b)) (x :: xs) =
        insertStable (fun a b => decide (key a < key b)) x
          (sortSliceStable (fun a b => decide (key a < key b)) xs) := rfl
    rw [hred, insertStable_filter_key, ih]
    by_cases hx : key x = k
    · subst hx
      simp [List.filter_cons]
    · have hxk : (key x == k) = false := beq_eq_false_iff_ne.mpr hx
      simp [List.filter_cons, hxk]

theorem lastIdx_lt_length (l : List String) (n : String) (j : Nat)
    (h : lastIdx l n = some j) : j < l.length := by
  induction l generalizing j with
  | nil => simp [lastIdx] at h
  | cons x xs ih =>
    unfold lastIdx at h
    cases hx : lastIdx xs n with
    | some j' =>
      simp only [hx, Option.some.injEq] at h
      have hj := ih j' hx
      simp only [List.length_cons]
      omega
    | none =>
      simp only [hx] at h
      by_cases hxe : x = n
      · simp only [hxe, if_pos, Option.some.injEq] at h
        simp only [List.length_cons]
        omega
      · simp [hxe] at h

theorem lastIdx_isSome_iff (l : List String) (n : String) :
    (lastIdx l n).isSome = true ↔ n ∈ l := by
  induction l with
  | nil => simp [lastIdx]
  | cons x xs ih =>
    unfold lastIdx
    cases hx : lastIdx xs n with
    | some j =>
      have hm : n ∈ xs := ih.mp (by rw [hx]; rfl)
      simp [hm]
    | none =>
      have hm : n ∉ xs := fun hc => by
        have hs := ih.mpr hc
        rw [hx] at hs
        simp at hs
      by_cases hxe : x = n
      · subst hxe
        simp
      · simp only [if_neg hxe]
        constructor
        · intro hs
          simp at hs
        · intro hmem
          rcases List.mem_cons.mp hmem with hmem | hmem
          · exact absurd hmem.symm hxe
          · exact absurd hmem hm

theorem orderKey_lt_of_mem {l : List String} {n : String}
    (hlen : l.length ≤ maxInt32) (h : n ∈ l) : orderKey l n < maxInt32 := by
  cases hx : lastIdx l n with
  | none =>
    have hs := (lastIdx_isSome_iff l n).mpr h
    rw [hx] at hs
    simp at hs
  | some j =>
    have hj := lastIdx_lt_length l n j hx
    unfold orderKey
    rw [hx, Option.getD_some]
    omega

theorem orderKey_eq_of_not_mem {l : List String} {n : String} (hm : n ∉ l) :
    orderKey l n = maxInt32 := by
  cases hx : lastIdx l n with
  | none =>
    unfold orderKey
    rw [hx]
    rfl
  | some j => exact absurd ((lastIdx_isSome_iff l n).mp (by rw [hx]; rfl)) hm

theorem mem_of_orderKey_lt {l : List String} {n : String}
    (h : orderKey l n < maxInt32) : n ∈ l := by
  by_contra hm
  rw [orderKey_eq_of_not_mem hm] at h
  exact Nat.lt_irrefl _ h

/-- C2: with an existing directory and a parsed non-empty order list `l`
(of realistic length, so Go's `math.MaxInt32` sentinel dominates every
real index), `GetEnvironmentFiles` returns a permutation of the filtered
directory entries that is sorted by order-list index, stable (the entries
of any fixed sort key keep their directory-enumeration relative order),
places every entry absent from the order list after all present entries,
and keeps absent entries in their enumeration order among themselves; on
the spec's concrete example — order `[b.json, a.json]`, enumerated files
`[a.json, b.json, c.json]` with `c.json` unranked — the listing is exactly
`[b.json, a.json, c.json]`; re-running the listing reproduces it
identically, `GetEnvironmentFiles` being a pure function of the store
state (the Go code performs no writes while listing). -/
theorem c2_get_environment_files_stable_order (st : Store V) (l : List String)
    (hdir : st.dirExists = true)
    (horder : (readEnvOrder st).1.order = some l)
    (hne : 0 < l.length) (hlen : l.length ≤ maxInt32) :
    (GetEnvironmentFiles st).Perm (st.entries.filter
      (fun fi => !fi.isDir && hasSuffix fi.name ".json" && fi.name != envOrderFileName)) ∧
    (GetEnvironmentFiles st).Pairwise
      (fun a b => orderKey l a.name ≤ orderKey l b.name) ∧
    (∀ k, (GetEnvironmentFiles st).filter (fun e : DirEntry => orderKey l e.name == k) =
      (st.entries.filter
        (fun fi => !fi.isDir && hasSuffix fi.name ".json" && fi.name != envOrderFileName)).filter
        (fun e : DirEntry => orderKey l e.name == k)) ∧
    (GetEnvironmentFiles st).Pairwise (fun a b => b.name ∈ l → a.name ∈ l) ∧
    ((GetEnvironmentFiles st).filter (fun e : DirEntry => !(decide (e.name ∈ l))) =
      (st.entries.filter
        (fun fi => !fi.isDir && hasSuffix fi.name ".json" && fi.name != envOrderFileName)).filter
        (fun e : DirEntry => !(decide (e.name ∈ l)))) ∧
    GetEnvironmentFiles (V := Nat)
        { dir := "/h/u", dirExists := true,
          entries := [⟨"a.json", false⟩, ⟨"b.json", false⟩, ⟨"c.json", false⟩],
          files := [],
          orderFile := some (some ⟨false, some ["b.json", "a.json"]⟩) } =
      [⟨"b.json", false⟩, ⟨"a.json", false⟩, ⟨"c.json", false⟩] := by
  have hred : GetEnvironmentFiles st =
      sortSliceStable (fun a b => decide (orderKey l a.name < orderKey l b.name))
        (st.entries.filter
          (fun fi => !fi.isDir && hasSuffix fi.name ".json" && fi.name != envOrderFileName)) := by
    simp only [GetEnvironmentFiles, hdir, horder]
    simp [hne]
  refine ⟨?_, ?_, ?_, ?_, ?_, by decide⟩
  · rw [hred]
    exact sortSliceStable_perm _ _
  · rw [hred]
    exact sortSliceStable_pairwise (fun e : DirEntry => orderKey l e.name) _
  · intro k
    rw [hred]
    exact sortSliceStable_filter_key (fun e : DirEntry => orderKey l e.name) k _
  · rw [hred]
    refine (sortSliceStable_pairwise (fun e : DirEntry => orderKey l e.name) _).imp ?_
    intro a b hab hbmem
    exact mem_of_orderKey_lt (lt_of_le_of_lt hab (orderKey_lt_of_mem hlen hbmem))
  · have hpred : (fun e : DirEntry => !(decide (e.name ∈ l))) =
        (fun e : DirEntry => orderKey l e.name == maxInt32) := by
      funext e
      by_cases hm : e.name ∈ l
      · have hlt := orderKey_lt_of_mem hlen hm
        simp [hm, beq_eq_false_iff_ne.mpr (Nat.ne_of_lt hlt)]
      · simp [hm, orderKey_eq_of_not_mem hm]
    rw [hpred, hred]
    exact sortSliceStable_filter_key (fun e : DirEntry => orderKey l e.name) maxInt32 _

/-- Witness for C2: the spec's stability example, with hypotheses
discharged at the concrete store. -/
theorem c2_witness :
    GetEnvironmentFiles (V := Nat)
        { dir := "/h/u", dirExists := true,
          entries := [⟨"a.json", false⟩, ⟨"b.json", false⟩, ⟨"c.json", false⟩],
          files := [],
          orderFile := some (some ⟨false, some ["b.json", "a.json"]⟩) } =
      [⟨"b.json", false⟩, ⟨"a.json", false⟩, ⟨"c.json", false⟩] :=
  (c2_get_environment_files_stable_order (V := Nat)
    { dir := "/h/u", dirExists := true,
      entries := [⟨"a.json", false⟩, ⟨"b.json", false⟩, ⟨"c.json", false⟩],
      files := [],
      orderFile := some (some ⟨false, some ["b.json", "a.json"]⟩) }
    ["b.json", "a.json"] rfl rfl (by decide) (by decide)).2.2.2.2.2

end GoRRIClient
